import Mathlib

/-!
Verification of `oraclepatchdownloader.py` (Oracle quarter patch downloader).

This file gives a shallow embedding, in Lean, of the pure logic of the
downloader module and proves or refutes the specification claims about it.
Filesystem contents, HTTP responses and XML element trees are passed as
explicit values; the SHA-256 hash itself and the 64-hex-token regex search
are abstracted as function parameters, since no claim depends on the
internals of the hash or the regex engine, only on how their results are
used.  Machine-level integers do not occur (Python integers are unbounded).
-/

namespace OPD

/-! ## Directory name normalization (`__normalize_directory_name`) -/

/-- Characters kept by `re.sub("[^a-zA-Z0-9_.-]+", "_", ...)`, i.e. the
complement of the character class `[^a-zA-Z0-9_.-]`. -/
def allowedDirChar (c : Char) : Bool :=
  (decide ('a' ≤ c) && decide (c ≤ 'z'))
    || (decide ('A' ≤ c) && decide (c ≤ 'Z'))
    || (decide ('0' ≤ c) && decide (c ≤ '9'))
    || c == '_' || c == '.' || c == '-'

/-- Left-to-right scanner implementing `re.sub("[^a-zA-Z0-9_.-]+", "_", s)`:
the flag records whether the scanner is currently inside a matched
(leftmost-longest) run of disallowed characters, whose first character has
already emitted the single replacement underscore. -/
def subDisallowedRunsAux : List Char → Bool → List Char
  | [], _ => []
  | c :: rest, inRun =>
    if allowedDirChar c then c :: subDisallowedRunsAux rest false
    else if inRun then subDisallowedRunsAux rest true
    else '_' :: subDisallowedRunsAux rest true

/-- `re.sub("[^a-zA-Z0-9_.-]+", "_", s)`: each maximal (leftmost-longest)
run of disallowed characters is replaced by a single underscore. -/
def subDisallowedRuns (l : List Char) : List Char :=
  subDisallowedRunsAux l false

/-- `re.sub("_$", "", s)`: drop one trailing underscore if present. -/
def stripTrailingUnd (l : List Char) : List Char :=
  if l.getLast? = some '_' then l.dropLast else l

/-- `re.sub("^_", "", s)`: drop one leading underscore if present. -/
def stripLeadingUnd (l : List Char) : List Char :=
  match l with
  | '_' :: rest => rest
  | l => l

/-- `__normalize_directory_name`: collapse disallowed runs to `_`, then
strip one trailing and then one leading underscore (in that order, as the
source applies `"_$"` before `"^_"`). -/
def normalize_directory_name (l : List Char) : List Char :=
  stripLeadingUnd (stripTrailingUnd (subDisallowedRuns l))

/-- Specification-side reformulation of the run-collapsing step, written as
a single right fold: the Boolean component records whether the output
already begins with the underscore produced for the current disallowed
run. -/
def collapseRunsSpecAux (l : List Char) : List Char × Bool :=
  l.foldr
    (fun c acc =>
      if allowedDirChar c then (c :: acc.1, false)
      else if acc.2 then acc else ('_' :: acc.1, true))
    ([], false)

/-- Specification-side run collapsing: each maximal run of characters
outside `[A-Za-z0-9_.-]` becomes one underscore. -/
def collapseRunsSpec (l : List Char) : List Char :=
  (collapseRunsSpecAux l).1

/-! ## Description-ledger deduplication (`__remove_duplicate_lines_desc_files`) -/

/-- Python `file.readlines()`: split a file's characters into lines, each
line keeping its terminating newline; a final segment without a newline is
returned as a last, unterminated line. -/
def readlines : List Char → List (List Char)
  | [] => []
  | c :: rest =>
    if c = '\n' then ['\n'] :: readlines rest
    else
      match readlines rest with
      | [] => [[c]]
      | l :: ls => (c :: l) :: ls

/-- Python `sorted(set(lines))`: the distinct lines in ascending
lexicographic order (Python compares strings lexicographically by code
point, which is the lexicographic order on `List Char`). -/
def sortedUniqueLines (ls : List (List Char)) : List (List Char) :=
  List.insertionSort (· ≤ ·) ls.dedup

/-- One application of `__remove_duplicate_lines_desc_files` to the content
of a single description ledger file: read the lines, sort the set of lines,
truncate the file and write the result back. -/
def remove_duplicate_lines (content : List Char) : List Char :=
  (sortedUniqueLines (readlines content)).flatten

example : normalize_directory_name "Linux x86-64 (64-bit)".toList
    = "Linux_x86-64_64-bit".toList := by decide

example : remove_duplicate_lines "b\na\nb\n".toList = "a\nb\n".toList := by decide

example : remove_duplicate_lines "ba\nbb\nb".toList = "bba\nbb\n".toList := by decide

example : remove_duplicate_lines "bba\nbb\n".toList = "bb\nbba\n".toList := by decide

/-! ## Verified downloader (`__download_link` and its helpers)

The destination directory is modelled as an association list from file
names to file contents (lists of bytes, as unbounded naturals).  The HTTP
response is modelled by its optional `content-length` header and the list
of chunks `iter_content` would yield.  The progress callback is modelled by
whether one was passed (`progressPresent`) together with the recorded list
of `(name, size, sofar)` invocations; calling a `None` callback is the
distinct outcome `noneNotCallable` (Python's `TypeError`).  The SHA-256
hex digest function is a parameter `sha256hex`; as produced by
`hashlib.sha256(...).hexdigest()` it yields lowercase hex, but no claim
depends on more than how its result is compared. -/

/-- Outcome of the `__download_link` call: normal return of the declared
size, a raised `ChecksumMismatch`, or the `TypeError` from calling a `None`
progress callback. -/
inductive DlResult where
  | ok (n : Nat)
  | checksumMismatch
  | noneNotCallable
deriving DecidableEq, Repr

/-- Contents of the destination directory: file name to file bytes. -/
abbrev FileSys := List (String × List Nat)

/-- Final state of one `__download_link` call: the destination directory,
the recorded progress-callback invocations, the number of body chunks read
from the network, and the result. -/
structure DlOutcome where
  fs : FileSys
  progressCalls : List (String × Nat × Nat)
  chunksRead : Nat
  result : DlResult
deriving DecidableEq, Repr

/-- Look a file up in the destination directory. -/
def fsLookup : FileSys → String → Option (List Nat)
  | [], _ => none
  | (n, c) :: rest, name => if n = name then some c else fsLookup rest name

/-- `open(path, "wb")` followed by writing `content`: create or overwrite. -/
def fsWrite : FileSys → String → List Nat → FileSys
  | [], name, content => [(name, content)]
  | (n, c) :: rest, name, content =>
    if n = name then (n, content) :: rest
    else (n, c) :: fsWrite rest name content

/-- `__check_file_exists`: the file exists and its `st_size` equals the
declared size. -/
def check_file_exists (fs : FileSys) (fileName : String) (fileSize : Nat) : Bool :=
  match fsLookup fs fileName with
  | some content => content.length == fileSize
  | none => false

/-- Python `str.upper()`, character by character (the strings it is applied
to here are ASCII hex digests, where this agrees with Python). -/
def strUpper (s : String) : String :=
  String.mk (s.toList.map Char.toUpper)

/-- `__calculate_file_checksum`: stream the file on disk through SHA-256
and return the uppercased hex digest.  (The 128 KiB block size does not
affect the digest, and the hash object is always truthy, so the `""`
branch of the source is unreachable.) -/
def calculate_file_checksum (sha256hex : List Nat → String) (fs : FileSys)
    (fileName : String) : String :=
  strUpper (sha256hex ((fsLookup fs fileName).getD []))

/-- Cumulative `total_dl` values after each chunk of the streaming loop. -/
def chunkTotals : List (List Nat) → Nat → List Nat
  | [], _ => []
  | c :: cs, acc => (acc + c.length) :: chunkTotals cs (acc + c.length)

/-- The tail of `__download_link` shared by the skip path and the streaming
path: compute the on-disk checksum and raise `ChecksumMismatch` when a
truthy expected checksum differs from it. -/
def checksum_step (sha256hex : List Nat → String) (fs : FileSys)
    (calls : List (String × Nat × Nat)) (read : Nat) (fileName : String)
    (oracleChecksum : Option String) (fileSize : Nat) : DlOutcome :=
  let computed := calculate_file_checksum sha256hex fs fileName
  match oracleChecksum with
  | none => ⟨fs, calls, read, .ok fileSize⟩
  | some c =>
    if c != "" && c != computed then ⟨fs, calls, read, .checksumMismatch⟩
    else ⟨fs, calls, read, .ok fileSize⟩

/-- `__download_link url oracle_file_checksum target_dir progress_function
dry_run_mode`, with the file name already extracted from the URL and the
response given by its `content-length` and body chunks.  A `None`
`content-length` is treated as size 0.  In dry-run mode the declared size
is returned with no transfer.  If a file of the same name and size exists,
the progress callback is invoked once unconditionally (a `None` callback
fails here).  Otherwise the body is streamed to disk chunk by chunk,
invoking the callback after each chunk only when a declared size and a
callback are present.  Finally the on-disk checksum is verified. -/
def download_link (sha256hex : List Nat → String) (fileName : String)
    (contentLength : Option Nat) (chunks : List (List Nat)) (fs : FileSys)
    (oracleChecksum : Option String) (progressPresent : Bool)
    (dryRunMode : Bool) : DlOutcome :=
  let fileSize := contentLength.getD 0
  if dryRunMode then ⟨fs, [], 0, .ok fileSize⟩
  else if check_file_exists fs fileName fileSize then
    if progressPresent then
      checksum_step sha256hex fs [(fileName, fileSize, fileSize)] 0 fileName
        oracleChecksum fileSize
    else ⟨fs, [], 0, .noneNotCallable⟩
  else
    let newFs := fsWrite fs fileName chunks.flatten
    let calls :=
      if decide (fileSize ≠ 0) && progressPresent then
        (chunkTotals chunks 0).map (fun t => (fileName, fileSize, t))
      else []
    checksum_step sha256hex newFs calls chunks.length fileName oracleChecksum
      fileSize

/-- `__obtain_sha256_checksum_oracle`, with the regex search
`re.search(r"\x7bA-Fa-f0-9\x7d...", text)` for a 64-hex-character token
abstracted as `searchHex64` (`none` when no token is found), and `aruInUrl`
telling whether the URL carried an `?aru=<digits>` parameter.  When no
request is made, the response body is empty, or no token is found, the
checksum stays `""`; the result is uppercased. -/
def obtain_sha256_checksum_oracle (searchHex64 : String → Option String)
    (aruInUrl : Bool) (respText : String) : String :=
  let checksum :=
    if aruInUrl then
      if respText != "" then
        match searchHex64 respText with
        | some tok => tok
        | none => ""
      else ""
    else ""
  strUpper checksum

/-- A stand-in for `hashlib.sha256(...).hexdigest()` used in concrete
counterexamples and witnesses: like the real digest it is lowercase hex. -/
def demoSha (content : List Nat) : String :=
  if content = [] then
    "e3b0c44298fc1c149afbf4c8996fb92427ae41e4649b934ca495991b7852b855"
  else
    "2fca346db656187102ce806ac732e06a62df0dbb2829e511a770556d398e1a6e"

example :
    (download_link demoSha "p.zip" (some 1) [[7]] [] (some (demoSha [7]))
      true false).result = DlResult.checksumMismatch := by decide

example :
    (download_link demoSha "p.zip" (some 1) [[7]] []
      (some (strUpper (demoSha [7]))) true false).result = DlResult.ok 1 := by
  decide

/-! ## XML element trees and the streaming catalog indexer

`xml.etree.ElementTree` elements, as seen by one `iterparse` event
handler: a tag, an attribute list, the child elements in document order,
and the optional text.  The three section-tracking values of the
`path_counter` `Counter` are carried as a structure of integers (`Counter`
values are Python ints).  Element mutation (`elem.clear()`) only discards
subtrees that no later handler in scope of these claims re-reads, so the
handlers are modelled as pure functions of the event pair they receive. -/

/-- An XML element as delivered by `iterparse`. -/
structure XmlElem where
  tag : String
  attrs : List (String × String)
  children : List XmlElem
  text : Option String

/-- `elem.get(key)`: attribute lookup, `None` when absent. -/
def xmlGet (e : XmlElem) (key : String) : Option String :=
  (e.attrs.find? (fun p => p.1 == key)).map (fun p => p.2)

/-- `elem.find(tag)`: first direct child with the given tag, `None` when
absent. -/
def xmlFind (e : XmlElem) (t : String) : Option XmlElem :=
  e.children.find? (fun c => c.tag == t)

/-- `elem.find("./digest[@type='SHA-256']")`. -/
def xmlFindDigestSHA256 (e : XmlElem) : Option XmlElem :=
  e.children.find? (fun c => c.tag == "digest" && xmlGet c "type" == some "SHA-256")

/-- `elem.iterfind("./files/file")`: the `file` children of each `files`
child, in document order. -/
def xmlIterFilesFile (e : XmlElem) : List XmlElem :=
  (e.children.filter (fun c => c.tag == "files")).foldr
    (fun fl acc => fl.children.filter (fun c => c.tag == "file") ++ acc) []

/-- The three entries of `path_counter` that the stream handlers touch. -/
structure PathCounter where
  patches : Int
  standalone : Int
  components : Int
deriving DecidableEq, Repr

/-- A Python `set` of patch uids, modelled as a duplicate-free list in
insertion order (`elem.get("uid")` may be `None`, and Python happily adds
`None` to the set, hence `Option String` elements). -/
abbrev UidSet := List (Option String)

/-- Python `set.add`: a no-op when the element is already present. -/
def setAdd (s : UidSet) (x : Option String) : UidSet :=
  if s.contains x then s else s ++ [x]

/-- The recommendation index `__recommended_db_patches`: a dict from
`(component id, platform code)` to a set of patch uids. -/
abbrev RecIndex := List ((String × String) × UidSet)

/-- Dict lookup in the recommendation index. -/
def recLookup : RecIndex → String × String → Option UidSet
  | [], _ => none
  | (k, v) :: rest, key => if k = key then some v else recLookup rest key

/-- Dict assignment in the recommendation index (replace or append). -/
def recSet : RecIndex → String × String → UidSet → RecIndex
  | [], key, v => [(key, v)]
  | (k, v0) :: rest, key, v =>
    if k = key then (k, v) :: rest else (k, v0) :: recSet rest key v

/-- `__process_standalone_recommendations_tag`: maintain the
`standalone_recommendations` counter and, on the guarded closing `release`
element whose `cid` is a known release component, add every `patch` uid of
every wanted `platform` child into the set keyed by
`(component id, platform code)`, creating the set on first use. -/
def process_standalone_recommendations_tag (comps plats : List String)
    (pc : PathCounter) (recommended : RecIndex) (evt : String)
    (elem : XmlElem) : PathCounter × RecIndex :=
  let pc1 :=
    if evt == "start" && elem.tag == "standalone_recommendations" then
      { pc with standalone := pc.standalone + 1 }
    else pc
  let rec1 :=
    if evt == "end" && decide (0 < pc1.standalone) && elem.tag == "release" then
      match xmlGet elem "cid" with
      | some cid =>
        if comps.contains cid then
          elem.children.foldl
            (fun acc platform =>
              match xmlGet platform "id" with
              | some pid =>
                if plats.contains pid then
                  let acc1 :=
                    if (recLookup acc (cid, pid)).isSome then acc
                    else recSet acc (cid, pid) []
                  platform.children.foldl
                    (fun acc2 patch =>
                      recSet acc2 (cid, pid)
                        (setAdd ((recLookup acc2 (cid, pid)).getD [])
                          (xmlGet patch "uid")))
                    acc1
                else acc
              | none => acc)
            recommended
        else recommended
      | none => recommended
    else recommended
  let pc2 :=
    if evt == "end" && elem.tag == "standalone_recommendations" then
      { pc1 with standalone := pc1.standalone - 1 }
    else pc1
  (pc2, rec1)

/-- `__process_components_recommendations_tag`: identical to the standalone
handler except that it tracks the `components_recommendations` section
counter. -/
def process_components_recommendations_tag (comps plats : List String)
    (pc : PathCounter) (recommended : RecIndex) (evt : String)
    (elem : XmlElem) : PathCounter × RecIndex :=
  let pc1 :=
    if evt == "start" && elem.tag == "components_recommendations" then
      { pc with components := pc.components + 1 }
    else pc
  let rec1 :=
    if evt == "end" && decide (0 < pc1.components) && elem.tag == "release" then
      match xmlGet elem "cid" with
      | some cid =>
        if comps.contains cid then
          elem.children.foldl
            (fun acc platform =>
              match xmlGet platform "id" with
              | some pid =>
                if plats.contains pid then
                  let acc1 :=
                    if (recLookup acc (cid, pid)).isSome then acc
                    else recSet acc (cid, pid) []
                  platform.children.foldl
                    (fun acc2 patch =>
                      recSet acc2 (cid, pid)
                        (setAdd ((recLookup acc2 (cid, pid)).getD [])
                          (xmlGet patch "uid")))
                    acc1
                else acc
              | none => acc)
            recommended
        else recommended
      | none => recommended
    else recommended
  let pc2 :=
    if evt == "end" && elem.tag == "components_recommendations" then
      { pc1 with components := pc1.components - 1 }
    else pc1
  (pc2, rec1)

/-! ## The `patches` section handler (`__process_patches_tag`) -/

/-- One patch file, as built by `OraclePatchFile(...)` inside
`__process_patches_tag`: URL = host attribute ++ path text; the digest,
name and size texts may each be `None`. -/
structure OraclePatchFile where
  download_url : String
  sha256sum : Option String
  name : Option String
  size : Option String
deriving DecidableEq, Repr

/-- One patch record, as built by `OraclePatch(...)` inside
`__process_patches_tag`.  Attribute lookups (`get`) yield `None` when
absent, hence the `Option` fields; `platform_code` is the wanted platform
id that guarded the record's construction. -/
structure OraclePatch where
  uid : Option String
  number : Option String
  description : Option String
  platform_code : String
  release_name : Option String
  access_level : Option String
  files : List OraclePatchFile
deriving DecidableEq, Repr

/-- The exceptions `__process_patches_tag` can raise while reading a
closing `patch` element: `AttributeError` (calling a method on the `None`
returned by a failed `find`), `TypeError` (concatenating `None` with a
string), and `UnboundLocalError` (reading `access_level` when the `access`
child was absent so the variable was never assigned). -/
inductive PatchTagErr where
  | attributeError
  | typeErr
  | unboundLocal
deriving DecidableEq, Repr

/-- The patch index `__all_db_patches`: a dict keyed by `elem.get("uid")`. -/
abbrev PatchMap := List (Option String × OraclePatch)

/-- Dict assignment in the patch index (replace or append). -/
def patchInsert : PatchMap → Option String → OraclePatch → PatchMap
  | [], k, v => [(k, v)]
  | (k0, v0) :: rest, k, v =>
    if k0 = k then (k0, v) :: rest else (k0, v0) :: patchInsert rest k v

/-- Result of one `__process_patches_tag` call: the updated counter and
patch index, or a raised exception. -/
inductive PatchResult where
  | ok (pc : PathCounter) (patches : PatchMap)
  | err (e : PatchTagErr)
deriving DecidableEq, Repr

/-- Build one `OraclePatchFile` from a `file` element, with the source's
evaluation order: the `download_url` child (`AttributeError` when absent),
then `host` attribute ++ path text (`TypeError` when either is `None`),
then the SHA-256 digest, `name` and `size` children (`AttributeError` when
one is absent, their text possibly `None`). -/
def build_patch_file (f : XmlElem) : Except PatchTagErr OraclePatchFile :=
  match xmlFind f "download_url" with
  | none => Except.error PatchTagErr.attributeError
  | some durl =>
    match xmlGet durl "host", durl.text with
    | some h, some t =>
      match xmlFindDigestSHA256 f with
      | none => Except.error PatchTagErr.attributeError
      | some d =>
        match xmlFind f "name" with
        | none => Except.error PatchTagErr.attributeError
        | some n =>
          match xmlFind f "size" with
          | none => Except.error PatchTagErr.attributeError
          | some s => Except.ok ⟨h ++ t, d.text, n.text, s.text⟩
    | _, _ => Except.error PatchTagErr.typeErr

/-- The `for file in elem.iterfind("./files/file")` loop. -/
def build_patch_files : List XmlElem → Except PatchTagErr (List OraclePatchFile)
  | [] => Except.ok []
  | f :: fs =>
    match build_patch_file f with
    | Except.error e => Except.error e
    | Except.ok pf =>
      match build_patch_files fs with
      | Except.error e => Except.error e
      | Except.ok rest => Except.ok (pf :: rest)

/-- The body of the kept-patch branch: build the `OraclePatch` for a
closing `patch` element whose platform id `pid` is wanted, evaluating the
constructor arguments in source order (`uid`, `number`, `description`,
`release_name`, then the possibly-unbound `access_level`), after the files
loop has run. -/
def build_patch_record (elem : XmlElem) (pid : String)
    (accessLevel : Except PatchTagErr (Option String)) :
    Except PatchTagErr OraclePatch :=
  match build_patch_files (xmlIterFilesFile elem) with
  | Except.error e => Except.error e
  | Except.ok pfiles =>
    match xmlFind elem "name" with
    | none => Except.error PatchTagErr.attributeError
    | some n =>
      match xmlFind elem "bug" with
      | none => Except.error PatchTagErr.attributeError
      | some bug =>
        match xmlFind bug "abstract" with
        | none => Except.error PatchTagErr.attributeError
        | some a =>
          match xmlFind elem "release" with
          | none => Except.error PatchTagErr.attributeError
          | some r =>
            match accessLevel with
            | Except.error e => Except.error e
            | Except.ok acc =>
              Except.ok
                ⟨xmlGet elem "uid", n.text, a.text, pid, xmlGet r "name", acc,
                  pfiles⟩

/-- The body run for a closing `patch` element inside an active `patches`
section: look for the optional `access` child (`access_level` is only
assigned when it exists; referencing it during record construction
otherwise raises `UnboundLocalError`), require a `platform` child
(`AttributeError` otherwise, as the source calls `.get` on `None`), and if
its id is a wanted platform, build the record and index it under
`elem.get("uid")`. -/
def process_patch_end (plats : List String) (pc1 : PathCounter)
    (patches : PatchMap) (elem : XmlElem) : PatchResult :=
  let accessLevel : Except PatchTagErr (Option String) :=
    match xmlFind elem "access" with
    | some t => Except.ok t.text
    | none => Except.error PatchTagErr.unboundLocal
  match xmlFind elem "platform" with
  | none => PatchResult.err PatchTagErr.attributeError
  | some platTag =>
    match xmlGet platTag "id" with
    | some pid =>
      if plats.contains pid then
        match build_patch_record elem pid accessLevel with
        | Except.error e => PatchResult.err e
        | Except.ok rec0 =>
          PatchResult.ok pc1 (patchInsert patches (xmlGet elem "uid") rec0)
      else PatchResult.ok pc1 patches
    | none => PatchResult.ok pc1 patches

/-- The `patches` counter increment on an opening `patches` element. -/
def bump_patches (pc : PathCounter) (b : Bool) : PathCounter :=
  if b then { pc with patches := pc.patches + 1 } else pc

/-- The `patches` counter decrement on a closing `patches` element,
applied after the patch-element step unless that step raised. -/
def dec_patches_if (res : PatchResult) (b : Bool) : PatchResult :=
  match res with
  | PatchResult.err e => PatchResult.err e
  | PatchResult.ok pc2 m2 =>
    if b then PatchResult.ok { pc2 with patches := pc2.patches - 1 } m2
    else PatchResult.ok pc2 m2

/-- `__process_patches_tag`: maintain the `patches` counter, discard
`fixed_bugs` subtrees (a no-op on the indices), and hand a guarded closing
`patch` element to `process_patch_end`. -/
def process_patches_tag (plats : List String) (pc : PathCounter)
    (patches : PatchMap) (evt : String) (elem : XmlElem) : PatchResult :=
  let pc1 := bump_patches pc (evt == "start" && elem.tag == "patches")
  let step2 : PatchResult :=
    if evt == "end" && decide (0 < pc1.patches) && elem.tag == "patch" then
      process_patch_end plats pc1 patches elem
    else PatchResult.ok pc1 patches
  dec_patches_if step2 (evt == "end" && elem.tag == "patches")

/-- One fold step of the event loop: propagate a raised exception, or
hand the next event to `__process_patches_tag`. -/
def patches_fold_step (plats : List String) (acc : PatchResult)
    (ev : String × XmlElem) : PatchResult :=
  match acc with
  | PatchResult.err e => PatchResult.err e
  | PatchResult.ok pc m => process_patches_tag plats pc m ev.1 ev.2

/-- `__process_patch_recommendations_file`, restricted to its effect on
`__all_db_patches`: fold `__process_patches_tag` over the event stream
starting from zeroed counters and an empty index (the recommendation
handlers never touch the patch index), stopping at the first exception. -/
def process_patches_events (plats : List String)
    (events : List (String × XmlElem)) : PatchResult :=
  events.foldl (patches_fold_step plats) (PatchResult.ok ⟨0, 0, 0⟩ [])

/-! ## The login redirect loop (`__logon_oracle_support`) -/

/-- One HTTP response as seen by the login loop: its status code, its
`Location` header (read only on a redirect status) and its cookies. -/
structure LoginResp where
  statusCode : Nat
  location : String
  cookies : List String
deriving DecidableEq, Repr

/-- State of the `while True` login loop: still looping on a current
response with the accumulated cookie jar, or broken out (success keeps the
jar, a 401 clears it and makes `__logon_oracle_support` return 1). -/
inductive LogonState where
  | running (reqIndex : Nat) (current : LoginResp) (cookieJar : List String)
  | doneOk (cookieJar : List String)
  | doneAuthErr
deriving DecidableEq, Repr

/-- Resolve a `Location` header: a path starting with `/` is resolved
against the fixed authentication host. -/
def resolve_location (loc : String) : String :=
  if loc.startsWith "/" then "https://updates.oracle.com" ++ loc else loc

/-- `cookie_jar.update(response.cookies)`: merge new cookies into the jar. -/
def mergeCookies (jar newCookies : List String) : List String :=
  jar ++ newCookies.filter (fun c => !jar.contains c)

/-- One iteration of the `while True` loop of `__logon_oracle_support`:
401 clears the jar and breaks; 302/307/301 resolves the `Location` header,
issues the follow-up request (the `reqIndex`-th entry of `responses`) and
merges its cookies; 200 merges cookies and breaks; any other status only
calls `logging.fatal`, which logs and returns, so the loop state is left
unchanged and the same response is inspected again. -/
def logon_step (responses : Nat → LoginResp) : LogonState → LogonState
  | LogonState.running i resp jar =>
    if resp.statusCode = 401 then LogonState.doneAuthErr
    else if resp.statusCode = 302 ∨ resp.statusCode = 307 ∨ resp.statusCode = 301 then
      let _newUrl := resolve_location resp.location
      let nextResp := responses i
      LogonState.running (i + 1) nextResp (mergeCookies jar nextResp.cookies)
    else if resp.statusCode = 200 then LogonState.doneOk (mergeCookies jar resp.cookies)
    else LogonState.running i resp jar
  | s => s

/-- Whether the login loop has broken out. -/
def logon_is_done : LogonState → Bool
  | LogonState.running _ _ _ => false
  | _ => true

/-! ## Concrete catalog fragments used by witnesses and counterexamples -/

/-- The `release` fragment of the spec's recommendation-merge example:
`<release cid="C1"><platform id="P1"><patch uid="U1"/><patch uid="U2"/>
</platform></release>`. -/
def exampleRelease : XmlElem :=
  ⟨"release", [("cid", "C1")],
    [⟨"platform", [("id", "P1")],
      [⟨"patch", [("uid", "U1")], [], none⟩,
       ⟨"patch", [("uid", "U2")], [], none⟩], none⟩], none⟩

/-- An opening/closing `patches` section element. -/
def patchesSection : XmlElem := ⟨"patches", [], [], none⟩

/-- A complete `patch` element for platform 226 with an `access` child. -/
def examplePatch : XmlElem :=
  ⟨"patch", [("uid", "U1")],
    [⟨"access", [], [], some "Open access"⟩,
     ⟨"platform", [("id", "226")], [], none⟩,
     ⟨"name", [], [], some "35042068"⟩,
     ⟨"bug", [], [⟨"abstract", [], [], some "DATABASE RELEASE UPDATE"⟩], none⟩,
     ⟨"release", [("name", "19.19.0.0.0")], [], none⟩,
     ⟨"files", [], [], none⟩], none⟩

/-- The same `patch` element with no `access` child. -/
def examplePatchNoAccess : XmlElem :=
  ⟨"patch", [("uid", "U1")],
    [⟨"platform", [("id", "226")], [], none⟩,
     ⟨"name", [], [], some "35042068"⟩,
     ⟨"bug", [], [⟨"abstract", [], [], some "DATABASE RELEASE UPDATE"⟩], none⟩,
     ⟨"release", [("name", "19.19.0.0.0")], [], none⟩,
     ⟨"files", [], [], none⟩], none⟩

/-! ## Lemmas about the normalizer (claim C9) -/

theorem collapseRunsSpecAux_cons (c : Char) (rest : List Char) :
    collapseRunsSpecAux (c :: rest)
      = if allowedDirChar c then (c :: (collapseRunsSpecAux rest).1, false)
        else if (collapseRunsSpecAux rest).2 then collapseRunsSpecAux rest
        else ('_' :: (collapseRunsSpecAux rest).1, true) := rfl

theorem collapseRunsSpecAux_snd_underscore :
    ∀ l : List Char, (collapseRunsSpecAux l).2 = true →
      ∃ t, (collapseRunsSpecAux l).1 = '_' :: t := by
  intro l
  induction l with
  | nil => intro hl; simp [collapseRunsSpecAux] at hl
  | cons c rest ih =>
    intro hl
    rw [collapseRunsSpecAux_cons] at hl ⊢
    by_cases hc : allowedDirChar c
    · simp [hc] at hl
    · by_cases h2 : (collapseRunsSpecAux rest).2
      · simpa [hc, h2] using ih (by simpa using h2)
      · simp [hc, h2]

theorem subDisallowedRunsAux_eq_collapse :
    ∀ l : List Char,
      subDisallowedRunsAux l false = (collapseRunsSpecAux l).1
      ∧ subDisallowedRunsAux l true
          = (if (collapseRunsSpecAux l).2 then ((collapseRunsSpecAux l).1).tail
             else (collapseRunsSpecAux l).1) := by
  intro l
  induction l with
  | nil => exact ⟨rfl, rfl⟩
  | cons c rest ih =>
    obtain ⟨ih1, ih2⟩ := ih
    rw [collapseRunsSpecAux_cons]
    by_cases hc : allowedDirChar c
    · simp [subDisallowedRunsAux, hc, ih1]
    · by_cases h2 : (collapseRunsSpecAux rest).2
      · obtain ⟨t, ht⟩ := collapseRunsSpecAux_snd_underscore rest h2
        constructor
        · simp only [subDisallowedRunsAux, hc, Bool.false_eq_true, if_false,
            if_pos h2, ih2, ht]
          simp
        · simp only [subDisallowedRunsAux, hc, Bool.false_eq_true, if_false,
            if_pos h2, ih2, ht]
          simp
      · constructor
        · simp [subDisallowedRunsAux, hc, h2, ih2]
        · simp [subDisallowedRunsAux, hc, h2, ih2]

theorem subDisallowedRuns_eq_collapseRunsSpec (l : List Char) :
    subDisallowedRuns l = collapseRunsSpec l :=
  (subDisallowedRunsAux_eq_collapse l).1

/-- C9: `__normalize_directory_name` replaces each maximal run of
characters outside `[A-Za-z0-9_.-]` with a single underscore and then
removes at most one trailing and at most one leading underscore, and it
maps `"Linux x86-64 (64-bit)"` to `"Linux_x86-64_64-bit"`. -/
theorem C9_normalize_directory_name :
    (∀ l : List Char,
      normalize_directory_name l
        = stripLeadingUnd (stripTrailingUnd (collapseRunsSpec l)))
    ∧ normalize_directory_name "Linux x86-64 (64-bit)".toList
        = "Linux_x86-64_64-bit".toList := by
  constructor
  · intro l
    unfold normalize_directory_name
    rw [subDisallowedRuns_eq_collapseRunsSpec]
  · decide

/-! ## Lemmas about the ledger deduplication (claim C5) -/

theorem readlines_ne_nil {l : List Char} (h : l ≠ []) : readlines l ≠ [] := by
  cases l with
  | nil => exact absurd rfl h
  | cons c rest =>
    simp only [readlines]
    by_cases hc : c = '\n'
    · simp [hc]
    · simp only [hc, if_false]
      cases readlines rest <;> simp

theorem readlines_terminated :
    ∀ {content : List Char},
      content = [] ∨ content.getLast? = some '\n' →
      ∀ l ∈ readlines content, ∃ w, '\n' ∉ w ∧ l = w ++ ['\n'] := by
  intro content
  induction content with
  | nil => simp [readlines]
  | cons c rest ih =>
    intro h l hl
    have h' : (c :: rest).getLast? = some '\n' := by
      rcases h with h | h
      · exact absurd h (by simp)
      · exact h
    by_cases hc : c = '\n'
    · subst hc
      simp only [readlines, if_pos rfl] at hl
      cases hl with
      | head => exact ⟨[], by simp, by simp⟩
      | tail _ h2 =>
        cases rest with
        | nil => cases h2
        | cons d rs =>
          refine ih (Or.inr ?_) l h2
          rw [List.getLast?_cons_cons] at h'
          exact h'
    · have hrestne : rest ≠ [] := by
        intro hr
        rw [hr] at h'
        simp only [List.getLast?_singleton, Option.some.injEq] at h'
        exact hc h'
      have hlast : rest.getLast? = some '\n' := by
        cases hr : rest with
        | nil => exact absurd hr hrestne
        | cons d rs =>
          rw [hr, List.getLast?_cons_cons] at h'
          exact h'
      have hne := readlines_ne_nil hrestne
      simp only [readlines, hc, if_false] at hl
      cases hrl : readlines rest with
      | nil => exact absurd hrl hne
      | cons l0 ls =>
        rw [hrl] at hl
        simp only [List.mem_cons] at hl
        rcases hl with hl | hl
        · obtain ⟨w0, hw0, he⟩ :=
            ih (Or.inr hlast) l0 (by rw [hrl]; exact List.mem_cons_self _ _)
          refine ⟨c :: w0, ?_, by simp [hl, he]⟩
          simp only [List.mem_cons, not_or]
          exact ⟨fun hcc => hc hcc.symm, hw0⟩
        · exact ih (Or.inr hlast) l (by rw [hrl]; exact List.mem_cons_of_mem _ hl)

theorem readlines_append {w : List Char} (hw : '\n' ∉ w) (s : List Char) :
    readlines (w ++ '\n' :: s) = (w ++ ['\n']) :: readlines s := by
  induction w with
  | nil => simp [readlines]
  | cons c w2 ih =>
    have hc : ¬c = '\n' := fun h => hw (by simp [h])
    have hw2 : '\n' ∉ w2 := fun h => hw (by simp [h])
    simp only [List.cons_append, readlines, hc, if_false]
    rw [show w2.append ('\n' :: s) = w2 ++ '\n' :: s from rfl, ih hw2]

theorem readlines_flatten :
    ∀ {L : List (List Char)},
      (∀ l ∈ L, ∃ w, '\n' ∉ w ∧ l = w ++ ['\n']) →
      readlines L.flatten = L := by
  intro L
  induction L with
  | nil => intro _; rfl
  | cons l L2 ih =>
    intro hL
    obtain ⟨w, hw, he⟩ := hL l (List.mem_cons_self _ _)
    subst he
    have harr : (w ++ ['\n']) ++ L2.flatten = w ++ '\n' :: L2.flatten := by simp
    rw [List.flatten_cons, harr, readlines_append hw,
      ih (fun l2 hl2 => hL l2 (List.mem_cons_of_mem _ hl2))]

theorem mem_sortedUniqueLines {l : List Char} {L : List (List Char)}
    (h : l ∈ sortedUniqueLines L) : l ∈ L := by
  unfold sortedUniqueLines at h
  exact List.mem_dedup.mp ((List.perm_insertionSort (· ≤ ·) L.dedup).mem_iff.mp h)

theorem nodup_sortedUniqueLines (L : List (List Char)) :
    (sortedUniqueLines L).Nodup :=
  ((List.perm_insertionSort (· ≤ ·) L.dedup).nodup_iff).mpr (List.nodup_dedup L)

theorem sorted_sortedUniqueLines (L : List (List Char)) :
    List.Sorted (· ≤ ·) (sortedUniqueLines L) :=
  List.sorted_insertionSort (· ≤ ·) L.dedup

theorem sortedUniqueLines_eq_self {L : List (List Char)} (h1 : L.Nodup)
    (h2 : List.Sorted (· ≤ ·) L) : sortedUniqueLines L = L := by
  unfold sortedUniqueLines
  rw [List.Nodup.dedup h1, List.Sorted.insertionSort_eq h2]

/-- C5 (amended): one application of the description-ledger deduplication
is a fixed point for every file all of whose lines are newline-terminated
(the empty file, or any file ending in a newline) — which is every file the
ledger writer itself produces; for a file whose last line has no trailing
newline the operation need not be idempotent. -/
theorem C5_dedup_idempotent_on_terminated (content : List Char)
    (h : content = [] ∨ content.getLast? = some '\n') :
    remove_duplicate_lines (remove_duplicate_lines content)
      = remove_duplicate_lines content := by
  unfold remove_duplicate_lines
  have hterm2 : ∀ l ∈ sortedUniqueLines (readlines content),
      ∃ w, '\n' ∉ w ∧ l = w ++ ['\n'] :=
    fun l hl => readlines_terminated h l (mem_sortedUniqueLines hl)
  rw [readlines_flatten hterm2,
    sortedUniqueLines_eq_self (nodup_sortedUniqueLines _)
      (sorted_sortedUniqueLines _)]

theorem C5_dedup_idempotent_witness :
    remove_duplicate_lines (remove_duplicate_lines "b\na\nb\n".toList)
      = remove_duplicate_lines "b\na\nb\n".toList :=
  C5_dedup_idempotent_on_terminated _ (Or.inr (by decide))

/-- C5 counterexample: for the file `"ba\nbb\nb"` (last line not
newline-terminated) a second application of the deduplication changes the
bytes again, so one application is not a fixed point. -/
theorem C5_dedup_not_idempotent_counterexample :
    remove_duplicate_lines (remove_duplicate_lines "ba\nbb\nb".toList)
      ≠ remove_duplicate_lines "ba\nbb\nb".toList := by decide

/-! ## Lemmas about the verified downloader (claims C1, C3, C4, C10) -/

theorem checksum_step_falsy (sha256hex : List Nat → String) (fs : FileSys)
    (calls : List (String × Nat × Nat)) (read : Nat) (fileName : String)
    (oracleChecksum : Option String) (fileSize : Nat)
    (h : oracleChecksum = none ∨ oracleChecksum = some "") :
    checksum_step sha256hex fs calls read fileName oracleChecksum fileSize
      = ⟨fs, calls, read, DlResult.ok fileSize⟩ := by
  rcases h with rfl | rfl <;> simp [checksum_step]

theorem checksum_step_some_ne (sha256hex : List Nat → String) (fs : FileSys)
    (calls : List (String × Nat × Nat)) (read : Nat) (fileName : String)
    (expected : String) (fileSize : Nat) (hne : expected ≠ "") :
    (checksum_step sha256hex fs calls read fileName (some expected) fileSize
        = ⟨fs, calls, read, DlResult.ok fileSize⟩
      ∧ expected = calculate_file_checksum sha256hex fs fileName)
    ∨ (checksum_step sha256hex fs calls read fileName (some expected) fileSize
        = ⟨fs, calls, read, DlResult.checksumMismatch⟩
      ∧ expected ≠ calculate_file_checksum sha256hex fs fileName) := by
  by_cases h : expected = calculate_file_checksum sha256hex fs fileName
  · left; constructor
    · simp [checksum_step, h]
    · exact h
  · right; constructor
    · simp [checksum_step, hne, h]
    · exact h

theorem check_file_exists_isSome {fs : FileSys} {fileName : String}
    {fileSize : Nat} (h : check_file_exists fs fileName fileSize = true) :
    (fsLookup fs fileName).isSome := by
  unfold check_file_exists at h
  cases hf : fsLookup fs fileName with
  | none => rw [hf] at h; cases h
  | some c => simp

theorem fsLookup_fsWrite_self (fs : FileSys) (fileName : String)
    (content : List Nat) :
    fsLookup (fsWrite fs fileName content) fileName = some content := by
  induction fs with
  | nil => simp [fsWrite, fsLookup]
  | cons p rest ih =>
    obtain ⟨n, c⟩ := p
    by_cases h : n = fileName <;> simp [fsWrite, fsLookup, h, ih]

/-- C1 (amended): with a non-empty expected checksum (and a progress
callback present whenever the skip path would run), a non-dry-run
`__download_link` returns the declared size exactly when the expected
checksum string equals, as an exact (case-sensitive) string, the
uppercased hex SHA-256 of the file on disk; otherwise it raises
`ChecksumMismatch`, and in either case the file is present on disk,
unmodified by the verification step.  Lowercase expected checksums (such
as catalog digests, which are not uppercased) therefore mismatch even
when they agree case-insensitively with the digest. -/
theorem C1_checksum_comparison_exact (sha256hex : List Nat → String)
    (fileName : String) (contentLength : Option Nat)
    (chunks : List (List Nat)) (fs : FileSys) (expected : String)
    (progressPresent : Bool) (hne : expected ≠ "")
    (hcb : check_file_exists fs fileName (contentLength.getD 0) = true →
      progressPresent = true) :
    ((download_link sha256hex fileName contentLength chunks fs (some expected)
          progressPresent false).result
        = DlResult.ok (contentLength.getD 0)
      ↔ expected = calculate_file_checksum sha256hex
          (download_link sha256hex fileName contentLength chunks fs
            (some expected) progressPresent false).fs fileName)
    ∧ ((download_link sha256hex fileName contentLength chunks fs
          (some expected) progressPresent false).result
            = DlResult.ok (contentLength.getD 0)
        ∨ (download_link sha256hex fileName contentLength chunks fs
            (some expected) progressPresent false).result
            = DlResult.checksumMismatch)
    ∧ (fsLookup (download_link sha256hex fileName contentLength chunks fs
          (some expected) progressPresent false).fs fileName).isSome := by
  by_cases hex : check_file_exists fs fileName (contentLength.getD 0) = true
  · have hout : download_link sha256hex fileName contentLength chunks fs
        (some expected) progressPresent false
        = checksum_step sha256hex fs
            [(fileName, contentLength.getD 0, contentLength.getD 0)] 0 fileName
            (some expected) (contentLength.getD 0) := by
      simp [download_link, hex, hcb hex]
    rcases checksum_step_some_ne sha256hex fs
        [(fileName, contentLength.getD 0, contentLength.getD 0)] 0 fileName
        expected (contentLength.getD 0) hne with ⟨heq, hcs⟩ | ⟨heq, hcs⟩
    · rw [hout, heq]
      exact ⟨by simp [hcs], Or.inl rfl, check_file_exists_isSome hex⟩
    · rw [hout, heq]
      exact ⟨⟨fun hok => (nomatch hok), fun hcalc => absurd hcalc hcs⟩,
        Or.inr rfl, check_file_exists_isSome hex⟩
  · simp only [Bool.not_eq_true] at hex
    have hout : download_link sha256hex fileName contentLength chunks fs
        (some expected) progressPresent false
        = checksum_step sha256hex (fsWrite fs fileName chunks.flatten)
            (if decide (contentLength.getD 0 ≠ 0) && progressPresent then
              (chunkTotals chunks 0).map
                (fun t => (fileName, contentLength.getD 0, t))
             else [])
            chunks.length fileName (some expected) (contentLength.getD 0) := by
      simp [download_link, hex]
    rcases checksum_step_some_ne sha256hex (fsWrite fs fileName chunks.flatten)
        (if decide (contentLength.getD 0 ≠ 0) && progressPresent then
          (chunkTotals chunks 0).map
            (fun t => (fileName, contentLength.getD 0, t))
         else [])
        chunks.length fileName expected (contentLength.getD 0) hne with
        ⟨heq, hcs⟩ | ⟨heq, hcs⟩
    · rw [hout, heq]
      exact ⟨by simp [hcs], Or.inl rfl,
        by rw [fsLookup_fsWrite_self]; rfl⟩
    · rw [hout, heq]
      exact ⟨⟨fun hok => (nomatch hok), fun hcalc => absurd hcalc hcs⟩,
        Or.inr rfl, by rw [fsLookup_fsWrite_self]; rfl⟩

theorem C1_checksum_comparison_exact_witness :
    ((download_link demoSha "p.zip" (some 1) [[7]] []
          (some (strUpper (demoSha [7]))) true false).result
        = DlResult.ok ((some 1 : Option Nat).getD 0)
      ↔ strUpper (demoSha [7]) = calculate_file_checksum demoSha
          (download_link demoSha "p.zip" (some 1) [[7]] []
            (some (strUpper (demoSha [7]))) true false).fs "p.zip")
    ∧ ((download_link demoSha "p.zip" (some 1) [[7]] []
          (some (strUpper (demoSha [7]))) true false).result
            = DlResult.ok ((some 1 : Option Nat).getD 0)
        ∨ (download_link demoSha "p.zip" (some 1) [[7]] []
            (some (strUpper (demoSha [7]))) true false).result
            = DlResult.checksumMismatch)
    ∧ (fsLookup (download_link demoSha "p.zip" (some 1) [[7]] []
          (some (strUpper (demoSha [7]))) true false).fs "p.zip").isSome :=
  C1_checksum_comparison_exact demoSha "p.zip" (some 1) [[7]] []
    (strUpper (demoSha [7])) true (by decide) (by decide)

/-- C1 counterexample: an expected checksum that is the (lowercase) digest
itself — exactly what the catalog supplies, since `__process_patches_tag`
does not uppercase the digest — agrees case-insensitively with the
computed checksum of the file on disk, yet `__download_link` raises
`ChecksumMismatch` instead of returning: the comparison is exact, not
case-insensitive. -/
theorem C1_case_insensitive_counterexample :
    strUpper (demoSha [7])
        = strUpper (calculate_file_checksum demoSha
            ((download_link demoSha "p.zip" (some 1) [[7]] []
              (some (demoSha [7])) true false).fs) "p.zip")
    ∧ demoSha [7] ≠ ""
    ∧ (download_link demoSha "p.zip" (some 1) [[7]] []
          (some (demoSha [7])) true false).result
        = DlResult.checksumMismatch := by decide

/-- C3 (amended): in non-dry-run mode, when a file of the same name and
declared byte size already exists at the destination, a progress callback
was passed, and the expected checksum is empty or equal to the existing
file's uppercased digest, `__download_link` reads zero body chunks,
invokes the callback exactly once with `(name, size, size)`, leaves the
directory untouched and returns the declared size.  (When a non-empty
expected checksum differs from the existing file's digest, the skip path
instead raises `ChecksumMismatch`.) -/
theorem C3_skip_on_match (sha256hex : List Nat → String) (fileName : String)
    (contentLength : Option Nat) (chunks : List (List Nat)) (fs : FileSys)
    (oracleChecksum : Option String)
    (hex : check_file_exists fs fileName (contentLength.getD 0) = true)
    (hck : ∀ c, oracleChecksum = some c →
      c = "" ∨ c = calculate_file_checksum sha256hex fs fileName) :
    download_link sha256hex fileName contentLength chunks fs oracleChecksum
        true false
      = ⟨fs, [(fileName, contentLength.getD 0, contentLength.getD 0)], 0,
          DlResult.ok (contentLength.getD 0)⟩ := by
  have hstep : download_link sha256hex fileName contentLength chunks fs
      oracleChecksum true false
      = checksum_step sha256hex fs
          [(fileName, contentLength.getD 0, contentLength.getD 0)] 0 fileName
          oracleChecksum (contentLength.getD 0) := by
    simp [download_link, hex]
  rw [hstep]
  cases oracleChecksum with
  | none => simp [checksum_step]
  | some c =>
    rcases hck c rfl with rfl | hc
    · simp [checksum_step]
    · simp [checksum_step, hc]

theorem C3_skip_on_match_witness :
    download_link demoSha "f.zip" (some 2) [[9, 9]] [("f.zip", [1, 2])]
        (some (strUpper (demoSha [1, 2]))) true false
      = ⟨[("f.zip", [1, 2])], [("f.zip", 2, 2)], 0, DlResult.ok 2⟩ :=
  C3_skip_on_match demoSha "f.zip" (some 2) [[9, 9]] [("f.zip", [1, 2])]
    (some (strUpper (demoSha [1, 2]))) (by decide)
    (fun c hc => Or.inr (by cases hc; decide))

/-- C3 counterexample: a stale file of the right name and size but with
content whose digest differs from the non-empty expected checksum makes
the skip path of `__download_link` raise `ChecksumMismatch` instead of
returning the declared size, so the claim's unconditional
"returns the declared size" fails. -/
theorem C3_skip_on_match_counterexample :
    check_file_exists [("f.zip", [1, 2])] "f.zip"
        ((some 2 : Option Nat).getD 0) = true
    ∧ (download_link demoSha "f.zip" (some 2) [[9, 9]] [("f.zip", [1, 2])]
          (some "ZZ") true false).result ≠ DlResult.ok 2
    ∧ (download_link demoSha "f.zip" (some 2) [[9, 9]] [("f.zip", [1, 2])]
          (some "ZZ") true false).result = DlResult.checksumMismatch := by
  decide

/-- C4: an absent or empty expected checksum disables verification:
whatever the downloaded content, `__download_link` never raises
`ChecksumMismatch`; and `__obtain_sha256_checksum_oracle` produces the
empty checksum whenever no request is made, the endpoint response is
empty, or no 64-hex token is found in it. -/
theorem C4_empty_checksum_skips_verification :
    (∀ (searchHex64 : String → Option String) (aruInUrl : Bool)
        (respText : String),
      aruInUrl = false ∨ respText = "" ∨ searchHex64 respText = none →
      obtain_sha256_checksum_oracle searchHex64 aruInUrl respText = "")
    ∧ (∀ (sha256hex : List Nat → String) (fileName : String)
        (contentLength : Option Nat) (chunks : List (List Nat)) (fs : FileSys)
        (oracleChecksum : Option String) (progressPresent dryRunMode : Bool),
      oracleChecksum = none ∨ oracleChecksum = some "" →
      (download_link sha256hex fileName contentLength chunks fs oracleChecksum
          progressPresent dryRunMode).result ≠ DlResult.checksumMismatch) := by
  constructor
  · intro searchHex64 aruInUrl respText h
    unfold obtain_sha256_checksum_oracle
    rcases h with rfl | rfl | h
    · rfl
    · cases aruInUrl <;> simp [strUpper]
    · cases aruInUrl <;> simp [h, strUpper]
  · intro sha256hex fileName contentLength chunks fs oracleChecksum
      progressPresent dryRunMode h
    unfold download_link
    by_cases hd : dryRunMode = true
    · simp [hd]
    · simp only [Bool.not_eq_true] at hd
      subst hd
      by_cases hex : check_file_exists fs fileName (contentLength.getD 0) = true
      · by_cases hp : progressPresent = true
        · simp [hex, hp, checksum_step_falsy _ _ _ _ _ _ _ h]
        · simp only [Bool.not_eq_true] at hp
          simp [hex, hp]
      · simp only [Bool.not_eq_true] at hex
        simp [hex, checksum_step_falsy _ _ _ _ _ _ _ h]

theorem C4_empty_checksum_witness :
    obtain_sha256_checksum_oracle (fun _ => none) true "some page text" = ""
    ∧ (download_link demoSha "f.zip" (some 1) [[3]] [] (some "") true
        false).result ≠ DlResult.checksumMismatch :=
  ⟨C4_empty_checksum_skips_verification.1 (fun _ => none) true "some page text"
      (Or.inr (Or.inr rfl)),
    C4_empty_checksum_skips_verification.2 demoSha "f.zip" (some 1) [[3]] []
      (some "") true false (Or.inr rfl)⟩

/-- C10 (implicit): on the skip path the progress callback is invoked
unconditionally, so with no callback passed (`None`) and an existing
same-name same-size file, a non-dry-run `__download_link` fails with the
`TypeError` of calling `None` instead of skipping and returning the
declared size; on the streaming path the callback's presence is checked
before each invocation, so a `None` callback never causes this failure
there (and no progress call is recorded). -/
theorem C10_none_callback_fails_skip_path :
    (∀ (sha256hex : List Nat → String) (fileName : String)
        (contentLength : Option Nat) (chunks : List (List Nat)) (fs : FileSys)
        (oracleChecksum : Option String),
      check_file_exists fs fileName (contentLength.getD 0) = true →
      download_link sha256hex fileName contentLength chunks fs oracleChecksum
          false false
        = ⟨fs, [], 0, DlResult.noneNotCallable⟩)
    ∧ (∀ (sha256hex : List Nat → String) (fileName : String)
        (contentLength : Option Nat) (chunks : List (List Nat)) (fs : FileSys)
        (oracleChecksum : Option String),
      check_file_exists fs fileName (contentLength.getD 0) = false →
      (download_link sha256hex fileName contentLength chunks fs oracleChecksum
          false false).result ≠ DlResult.noneNotCallable
      ∧ (download_link sha256hex fileName contentLength chunks fs
          oracleChecksum false false).progressCalls = []) := by
  constructor
  · intro sha256hex fileName contentLength chunks fs oracleChecksum hex
    simp [download_link, hex]
  · intro sha256hex fileName contentLength chunks fs oracleChecksum hex
    have hdl : download_link sha256hex fileName contentLength chunks fs
        oracleChecksum false false
        = checksum_step sha256hex (fsWrite fs fileName chunks.flatten) []
            chunks.length fileName oracleChecksum (contentLength.getD 0) := by
      simp [download_link, hex]
    rw [hdl]
    cases oracleChecksum with
    | none => simp [checksum_step]
    | some c =>
      unfold checksum_step
      by_cases hc : (c != "" && c != calculate_file_checksum sha256hex
          (fsWrite fs fileName chunks.flatten) fileName) = true
      · simp [hc]
      · simp only [Bool.not_eq_true] at hc
        simp [hc]

theorem C10_none_callback_witness :
    download_link demoSha "f.zip" (some 1) [] [("f.zip", [5])] none false false
      = ⟨[("f.zip", [5])], [], 0, DlResult.noneNotCallable⟩ :=
  C10_none_callback_fails_skip_path.1 demoSha "f.zip" (some 1) []
    [("f.zip", [5])] none (by decide)

/-! ## The login loop (claim C2) -/

/-- C2 (code bug): the login loop handles 401 (failure) and 200 (success,
with merged cookies) by breaking out, but on any other status code —
status 500 shown here — the `else` branch only calls `logging.fatal`,
which logs and returns, so the loop state is unchanged and the loop
re-inspects the same response forever: for every response oracle and every
number of iterations the state is still `running`, never done. -/
theorem C2_logon_unexpected_status_never_terminates :
    (∀ (responses : Nat → LoginResp) (i : Nat) (loc : String)
        (cs jar : List String) (n : Nat),
      (logon_step responses)^[n] (LogonState.running i ⟨500, loc, cs⟩ jar)
        = LogonState.running i ⟨500, loc, cs⟩ jar)
    ∧ (∀ (responses : Nat → LoginResp) (i : Nat) (loc : String)
        (cs jar : List String) (n : Nat),
      logon_is_done ((logon_step responses)^[n]
        (LogonState.running i ⟨500, loc, cs⟩ jar)) = false)
    ∧ (∀ (responses : Nat → LoginResp) (i : Nat) (loc : String)
        (cs jar : List String),
      logon_step responses (LogonState.running i ⟨401, loc, cs⟩ jar)
        = LogonState.doneAuthErr)
    ∧ (∀ (responses : Nat → LoginResp) (i : Nat) (loc : String)
        (cs jar : List String),
      logon_step responses (LogonState.running i ⟨200, loc, cs⟩ jar)
        = LogonState.doneOk (mergeCookies jar cs)) := by
  have hfix : ∀ (responses : Nat → LoginResp) (i : Nat) (loc : String)
      (cs jar : List String),
      logon_step responses (LogonState.running i ⟨500, loc, cs⟩ jar)
        = LogonState.running i ⟨500, loc, cs⟩ jar := by
    intro responses i loc cs jar
    simp [logon_step]
  have hiter : ∀ (responses : Nat → LoginResp) (i : Nat) (loc : String)
      (cs jar : List String) (n : Nat),
      (logon_step responses)^[n] (LogonState.running i ⟨500, loc, cs⟩ jar)
        = LogonState.running i ⟨500, loc, cs⟩ jar := by
    intro responses i loc cs jar n
    induction n with
    | zero => rfl
    | succ k ih => rw [Function.iterate_succ_apply', ih, hfix]
  refine ⟨hiter, ?_, ?_, ?_⟩
  · intro responses i loc cs jar n
    rw [hiter]
    rfl
  · intro responses i loc cs jar
    simp [logon_step]
  · intro responses i loc cs jar
    simp [logon_step]

/-! ## The recommendation merges (claim C6) -/

/-- C6: inside their respective active sections, the standalone and the
per-component recommendation handlers are the same function of the release
element, the known-components list, the wanted-platforms list and the
prior index; and, on the spec's example fragment fed through both
sections, the entry for `("C1", "P1")` is the two-element set
`{U1, U2}` — each uid present exactly once even though both sections add
it — entries accumulate as a set, an absent key starting as the empty
set. -/
theorem C6_recommendation_merges_agree :
    (∀ (comps plats : List String) (pcS pcC : PathCounter)
        (recommended : RecIndex) (evt : String) (elem : XmlElem),
      0 < pcS.standalone → 0 < pcC.components →
      (process_standalone_recommendations_tag comps plats pcS recommended evt
          elem).2
        = (process_components_recommendations_tag comps plats pcC recommended
            evt elem).2)
    ∧ recLookup
        (process_components_recommendations_tag ["C1"] ["P1"] ⟨0, 0, 1⟩
          (process_standalone_recommendations_tag ["C1"] ["P1"] ⟨0, 1, 0⟩ []
            "end" exampleRelease).2
          "end" exampleRelease).2 ("C1", "P1")
      = some [some "U1", some "U2"] := by
  constructor
  · intro comps plats pcS pcC recommended evt elem h1 h2
    by_cases hevt : evt = "end"
    · subst hevt
      unfold process_standalone_recommendations_tag
        process_components_recommendations_tag
      simp [h1, h2]
    · have hb : (evt == "end") = false := by
        simp [hevt]
      unfold process_standalone_recommendations_tag
        process_components_recommendations_tag
      simp [hb]
  · decide

theorem C6_recommendation_merges_agree_witness :
    (process_standalone_recommendations_tag ["C1"] ["P1"] ⟨0, 1, 1⟩ [] "end"
        exampleRelease).2
      = (process_components_recommendations_tag ["C1"] ["P1"] ⟨0, 1, 1⟩ []
          "end" exampleRelease).2 :=
  C6_recommendation_merges_agree.1 ["C1"] ["P1"] ⟨0, 1, 1⟩ ⟨0, 1, 1⟩ [] "end"
    exampleRelease (by decide) (by decide)

/-! ## The patches-section invariant (claims C7, C8) -/

theorem patchInsert_mem {m : PatchMap} {k : Option String} {v : OraclePatch}
    {kv : Option String × OraclePatch} (h : kv ∈ patchInsert m k v) :
    kv ∈ m ∨ kv = (k, v) := by
  induction m with
  | nil =>
    simp only [patchInsert, List.mem_singleton] at h
    exact Or.inr h
  | cons p rest ih =>
    obtain ⟨k0, v0⟩ := p
    by_cases hk : k0 = k
    · simp only [patchInsert, if_pos hk] at h
      rcases List.mem_cons.mp h with h | h
      · exact Or.inr (by rw [h, hk])
      · exact Or.inl (List.mem_cons_of_mem _ h)
    · simp only [patchInsert, if_neg hk] at h
      rcases List.mem_cons.mp h with h | h
      · exact Or.inl (by rw [h]; exact List.mem_cons_self _ _)
      · rcases ih h with h | h
        · exact Or.inl (List.mem_cons_of_mem _ h)
        · exact Or.inr h

theorem build_patch_record_platform_code {elem : XmlElem} {pid : String}
    {accessLevel : Except PatchTagErr (Option String)} {rec0 : OraclePatch}
    (h : build_patch_record elem pid accessLevel = Except.ok rec0) :
    rec0.platform_code = pid := by
  unfold build_patch_record at h
  repeat' split at h
  all_goals cases h
  all_goals rfl

theorem process_patch_end_preserves {plats : List String} {pc1 : PathCounter}
    {m : PatchMap} {elem : XmlElem} {pc2 : PathCounter} {m2 : PatchMap}
    (h : process_patch_end plats pc1 m elem = PatchResult.ok pc2 m2)
    (hm : ∀ kv ∈ m, kv.2.platform_code ∈ plats) :
    ∀ kv ∈ m2, kv.2.platform_code ∈ plats := by
  simp only [process_patch_end] at h
  split at h
  · exact absurd h (by simp)
  · split at h
    · rename_i pid hpid
      split at h
      · rename_i hcont
        split at h
        · exact absurd h (by simp)
        · rename_i rec0 hrec
          cases h
          intro kv hkv
          rcases patchInsert_mem hkv with hkv2 | hkv2
          · exact hm kv hkv2
          · subst hkv2
            show rec0.platform_code ∈ plats
            rw [build_patch_record_platform_code hrec]
            exact List.elem_iff.mp hcont
      · cases h
        exact hm
    · cases h
      exact hm

theorem dec_patches_if_ok {res : PatchResult} {b : Bool} {pc2 : PathCounter}
    {m2 : PatchMap} (h : dec_patches_if res b = PatchResult.ok pc2 m2) :
    ∃ pc2b, res = PatchResult.ok pc2b m2 := by
  unfold dec_patches_if at h
  split at h
  · exact absurd h (by simp)
  · split at h <;> (cases h; exact ⟨_, rfl⟩)

theorem process_patches_tag_m2 {plats : List String} {pc : PathCounter}
    {m : PatchMap} {evt : String} {elem : XmlElem} {pc2 : PathCounter}
    {m2 : PatchMap}
    (h : process_patches_tag plats pc m evt elem = PatchResult.ok pc2 m2) :
    m2 = m ∨ ∃ pc1 pc2b, process_patch_end plats pc1 m elem
      = PatchResult.ok pc2b m2 := by
  simp only [process_patches_tag] at h
  obtain ⟨pc2b, hres⟩ := dec_patches_if_ok h
  split at hres
  · exact Or.inr ⟨_, _, hres⟩
  · cases hres
    exact Or.inl rfl

theorem process_patches_tag_preserves {plats : List String} {pc : PathCounter}
    {m : PatchMap} {evt : String} {elem : XmlElem} {pc2 : PathCounter}
    {m2 : PatchMap}
    (h : process_patches_tag plats pc m evt elem = PatchResult.ok pc2 m2)
    (hm : ∀ kv ∈ m, kv.2.platform_code ∈ plats) :
    ∀ kv ∈ m2, kv.2.platform_code ∈ plats := by
  rcases process_patches_tag_m2 h with rfl | ⟨pc1, pc2b, hpe⟩
  · exact hm
  · exact process_patch_end_preserves hpe hm

/-- C7: after folding any event stream through `__process_patches_tag`
(starting from the empty index), every record stored in
`__all_db_patches` has a `platform_code` that is a key of the
wanted-platforms mapping — records for other platforms are never
indexed. -/
theorem C7_indexed_platforms_are_wanted (plats : List String)
    (events : List (String × XmlElem)) (pc : PathCounter) (m : PatchMap)
    (h : process_patches_events plats events = PatchResult.ok pc m) :
    ∀ kv ∈ m, kv.2.platform_code ∈ plats := by
  have hgen : ∀ (evs : List (String × XmlElem)) (acc : PatchResult)
      (pcf : PathCounter) (mf : PatchMap),
      (∀ pc0 m0, acc = PatchResult.ok pc0 m0 →
        ∀ kv ∈ m0, kv.2.platform_code ∈ plats) →
      evs.foldl (patches_fold_step plats) acc = PatchResult.ok pcf mf →
      ∀ kv ∈ mf, kv.2.platform_code ∈ plats := by
    intro evs
    induction evs with
    | nil =>
      intro acc pcf mf hacc hrun
      exact hacc pcf mf hrun
    | cons ev rest ih =>
      intro acc pcf mf hacc hrun
      rw [List.foldl_cons] at hrun
      refine ih _ pcf mf ?_ hrun
      intro pc0 m0 hstep
      cases acc with
      | err e => exact absurd hstep (by simp [patches_fold_step])
      | ok pca ma =>
        exact process_patches_tag_preserves hstep (hacc pca ma rfl)
  exact hgen events (PatchResult.ok ⟨0, 0, 0⟩ []) pc m
    (by intro pc0 m0 he kv hkv; cases he; cases hkv) h

theorem C7_indexed_platforms_witness :
    process_patches_events ["226"]
        [("start", patchesSection), ("end", examplePatch),
          ("end", patchesSection)]
      = PatchResult.ok ⟨0, 0, 0⟩
          [(some "U1",
            ⟨some "U1", some "35042068", some "DATABASE RELEASE UPDATE", "226",
              some "19.19.0.0.0", some "Open access", []⟩)]
    ∧ (∀ kv ∈ ([(some "U1",
          (⟨some "U1", some "35042068", some "DATABASE RELEASE UPDATE", "226",
            some "19.19.0.0.0", some "Open access", []⟩ : OraclePatch))] :
          PatchMap),
        kv.2.platform_code ∈ ["226"]) :=
  ⟨by decide,
    C7_indexed_platforms_are_wanted ["226"]
      [("start", patchesSection), ("end", examplePatch),
        ("end", patchesSection)]
      ⟨0, 0, 0⟩ _ (by decide)⟩

/-- C8 (code bug): a closing `patch` element inside an active `patches`
section whose platform is wanted but which has no `access` child makes
`__process_patches_tag` raise `UnboundLocalError` (the local
`access_level` is only assigned when the `access` child exists, and each
call has a fresh local scope) — it does not build a record with a null
access level.  The same element with an `access` child succeeds. -/
theorem C8_missing_access_raises_unbound_local :
    process_patches_tag ["226"] ⟨1, 0, 0⟩ [] "end" examplePatchNoAccess
      = PatchResult.err PatchTagErr.unboundLocal
    ∧ process_patches_tag ["226"] ⟨1, 0, 0⟩ [] "end" examplePatch
      ≠ PatchResult.err PatchTagErr.unboundLocal := by decide

end OPD
